import Mathlib

/-!
Shallow embedding of `src/train_model_old.py` (a face-mask training script)
and proofs about its observable behaviour.

The script is glue around library calls.  We embed:
  * the hyperparameter constants (lines 41-43),
  * the file-enumeration and label-extraction loop (lines 48-68), with the
    `imutils.paths.list_images` filter spelled out from that library's
    documented extension check, and paths modelled as lists of components
    (`os.path.sep`-separated pieces), images abstracted by their paths,
  * the label-encoding pipeline `LabelBinarizer` + `to_categorical`
    (lines 71-73) over integer matrices,
  * the seeded stratified `train_test_split` call (lines 78-79),
  * the augmenter configuration (lines 82-90),
  * the model assembly and freezing loop (lines 94-111),
  * the Adam optimizer's learning-rate decay (line 116),
  * the step counts passed to `fit` (lines 122-128), and
  * the argparse interface (lines 29-37).
-/

namespace TrainModel

/-! ## Hyperparameter constants (source lines 41-43) -/

/-- `learning_rate = 1e-3` (source line 41), as an exact rational. -/
def learning_rate : ℚ := 1 / 1000

/-- `EPOCHS = 20` (source line 42). -/
def EPOCHS : ℕ := 20

/-- `BS = 32` (source line 43): the batch size. -/
def BS : ℕ := 32

/-! ## File enumeration (source line 48, `imutils.paths.list_images`)

A path is modelled as its list of components (the pieces separated by
`os.path.sep`); the file system visible to `os.walk` is modelled as the list
of file paths the walk yields, in walk order. -/

/-- The extension whitelist of `imutils.paths.list_images`. -/
def image_types : List String :=
  [".jpg", ".jpeg", ".png", ".bmp", ".tif", ".tiff"]

/-- Python `str.lower` on one character, for the ASCII-named files the walk
yields. -/
def lowerChar (c : Char) : Char :=
  if 'A' ≤ c ∧ c ≤ 'Z' then Char.ofNat (c.toNat + 32) else c

/-- Python `filename[filename.rfind("."):]`: the suffix starting at the last
dot; when there is no dot, `rfind` returns `-1` and the slice is the last
character (empty for the empty string).  Computed on the character list. -/
def extOf (filename : String) : List Char :=
  let r := filename.data.reverse
  let suf := r.takeWhile (fun c => c ≠ '.')
  if suf.length = r.length then (r.take 1).reverse
  else '.' :: suf.reverse

/-- The per-file test of `imutils.paths.list_files`:
`ext.lower().endswith(image_types)`. -/
def isImageFile (filename : String) : Bool :=
  image_types.any (fun t => t.data.isSuffixOf ((extOf filename).map lowerChar))

/-- `list(paths.list_images(dataset))` (source line 48): the walked files
whose last component (the filename) has a recognised image extension.  The
enumeration never fails; an imageless tree just yields `[]`. -/
def list_images (fs : List (List String)) : List (List String) :=
  fs.filter (fun p =>
    match p.getLast? with
    | some fname => isImageFile fname
    | none => false)

/-! ## Label extraction and the loading loop (source lines 53-68) -/

/-- `imagePath.split(os.path.sep)[-2]` (source line 55) with Python's
negative-index semantics: the second-to-last component when the path has at
least two components, an `IndexError` (here `none`) otherwise. -/
def labelOf (comps : List String) : Option String :=
  if 2 ≤ comps.length then comps.get? (comps.length - 2) else none

/-- The body of the loading loop applied to every enumerated path: collect
each path's label, propagating the `IndexError` that Python's `[-2]` raises
on a too-short path. -/
def collectLabels : List (List String) → Except String (List String)
  | [] => Except.ok []
  | p :: ps =>
    match labelOf p with
    | some l => (collectLabels ps).map (fun ls => l :: ls)
    | none => Except.error "IndexError: list index out of range"

/-- The dataset-loading stage (source lines 48-68): enumerate image files,
then run the loop that fills `data` and `labels`.  Image decoding is
abstracted: a loaded image is represented by its path, so `data` is the list
of enumerated paths and `labels` the extracted labels. -/
def loadStage (fs : List (List String)) :
    Except String (List (List String) × List String) :=
  match collectLabels (list_images fs) with
  | Except.ok ls => Except.ok (list_images fs, ls)
  | Except.error e => Except.error e

/-! ## Label encoding (source lines 71-73)

`lb = LabelBinarizer(); labels = lb.fit_transform(labels);
labels = to_categorical(labels)`.  `LabelBinarizer` fits `classes_` to the
sorted distinct labels (`numpy.unique` order); its transform returns an
`n x 1` column of `0`/`1` for at most two classes (`1` exactly for the second
class, all `0` for a single class) and an `n x k` one-hot matrix for `k ≥ 3`
classes.  `to_categorical` drops a trailing dimension of size one, flattens
the rest, infers `num_classes` as one more than the largest entry, and
one-hot encodes every remaining entry, so a column becomes a 2-D matrix and
a `k ≥ 3` one-hot matrix becomes a 3-D tensor. -/

/-- Lexicographic comparison of character lists by code point: the order
`numpy.unique` sorts ASCII strings in. -/
def lexLe : List Char → List Char → Bool
  | [], _ => true
  | _ :: _, [] => false
  | a :: as, b :: bs =>
    if a.toNat < b.toNat then true
    else if b.toNat < a.toNat then false
    else lexLe as bs

/-- `lb.classes_`: the distinct labels in sorted order. -/
def lbClasses (labels : List String) : List String :=
  List.insertionSort (fun a b => lexLe a.data b.data = true) labels.dedup

/-- Index of a one-hot `1` among `num` positions (`categorical[i, y] = 1`). -/
def oneHot (num j : ℕ) : List ℕ :=
  (List.range num).map (fun i => if i = j then 1 else 0)

/-- Output of `LabelBinarizer.fit_transform`: an `n x 1` integer column for
at most two classes, an `n x k` one-hot matrix for `k ≥ 3` classes. -/
inductive LBOut where
  | col (vals : List ℕ)
  | mat (rows : List (List ℕ))

/-- `lb.fit_transform(labels)` (source line 72). -/
def fit_transform (labels : List String) : LBOut :=
  let classes := lbClasses labels
  if classes.length ≤ 2 then
    LBOut.col (labels.map (fun l =>
      if classes.length = 2 ∧ l = classes.getD 1 "" then 1 else 0))
  else
    LBOut.mat (labels.map (fun l => oneHot classes.length (classes.indexOf l)))

/-- `numpy.max` over a list of naturals (`0` on the empty list). -/
def listMax (xs : List ℕ) : ℕ := xs.foldr max 0

/-- Output of `to_categorical`: a 2-D matrix or a 3-D tensor. -/
inductive CatOut where
  | m2 (rows : List (List ℕ))
  | m3 (slabs : List (List (List ℕ)))

/-- `to_categorical(labels)` (source line 73): squeeze a trailing dimension
of one, infer `num_classes = max + 1`, one-hot encode each entry. -/
def to_categorical : LBOut → CatOut
  | LBOut.col ys =>
      let num := listMax ys + 1
      CatOut.m2 (ys.map (fun y => oneHot num y))
  | LBOut.mat rows =>
      let num := listMax (rows.map listMax) + 1
      CatOut.m3 (rows.map (fun r => r.map (fun y => oneHot num y)))

/-- The whole encoding pipeline of source lines 71-73. -/
def encodeLabels (labels : List String) : CatOut :=
  to_categorical (fit_transform labels)

/-- `np.argmax` over one row (source line 136): first index of the maximum. -/
def argmaxL (xs : List ℕ) : ℕ := xs.indexOf (listMax xs)

/-- Indexing `lb.classes_` with a predicted index (source line 140). -/
def decodeIdx (labels : List String) (i : ℕ) : Option String :=
  (lbClasses labels).get? i

/-- `Dense(2, activation="softmax")` (source line 103): the output head has
two units whatever the number of fitted classes. -/
def headOutputUnits : ℕ := 2

/-- The encoded labels form a matrix whose shape and argmax match the fitted
class list: 2-D, one row per sample, one column per class, and the argmax of
a sample's row indexes that sample's label in `lb.classes_`. -/
def correspondsToClasses (labels : List String) : Prop :=
  ∃ rows, encodeLabels labels = CatOut.m2 rows
    ∧ rows.length = labels.length
    ∧ (∀ r ∈ rows, r.length = (lbClasses labels).length)
    ∧ (∀ i l, labels.get? i = some l →
        ∃ r, rows.get? i = some r ∧ decodeIdx labels (argmaxL r) = some l)

/-- The encoded labels form a valid two-column one-hot matrix: 2-D, one row
per sample, each row `[1,0]` or `[0,1]`. -/
def validTwoColumnOneHot (labels : List String) : Prop :=
  ∃ rows, encodeLabels labels = CatOut.m2 rows
    ∧ rows.length = labels.length
    ∧ ∀ r ∈ rows, r = [1, 0] ∨ r = [0, 1]

/-! ## Train/test split (source lines 78-79)

`train_test_split(data, labels, test_size=0.20, stratify=labels,
random_state=42)`.  Modelled from the spec: the splitter itself is library
code, documented as "stratified — class proportions preserved in both splits
within rounding.  Deterministic given seed."  We model it as a pure function
of its inputs and the seed: for every class, the first
`⌊count * 20 / 100⌋` occurrences (in a deterministic order; the seed selects
which samples in the library, which the counting facts below do not depend
on) form the test partition for that class and the rest the train
partition. -/

/-- `test_size=0.20` (source line 79) as a percentage. -/
def test_size_percent : ℕ := 20

/-- `random_state=42` (source line 79). -/
def random_state : ℕ := 42

/-- Positions at which a label occurs, in order, starting at offset `i`. -/
def occIndices (l : String) : List String → ℕ → List ℕ
  | [], _ => []
  | x :: xs, i =>
    if x = l then i :: occIndices l xs (i + 1) else occIndices l xs (i + 1)

/-- Number of samples of a class allotted to the test partition:
`⌊count * 20 / 100⌋`. -/
def testCountFor (labels : List String) (l : String) : ℕ :=
  labels.count l * test_size_percent / 100

/-- Concatenation of per-class blocks. -/
def concatMapL (f : String → List ℕ) : List String → List ℕ
  | [] => []
  | c :: cs => f c ++ concatMapL f cs

/-- Modelled from the spec: the test-partition indices of the seeded
stratified split — per class, the first `testCountFor` occurrences. -/
def stratTestIdx (labels : List String) (_seed : ℕ) : List ℕ :=
  concatMapL (fun c => (occIndices c labels 0).take (testCountFor labels c))
    (lbClasses labels)

/-- Modelled from the spec: the train-partition indices of the seeded
stratified split — per class, the occurrences not taken for the test
partition. -/
def stratTrainIdx (labels : List String) (_seed : ℕ) : List ℕ :=
  concatMapL (fun c => (occIndices c labels 0).drop (testCountFor labels c))
    (lbClasses labels)

/-- Row selection by index list. -/
def selectIdx {α : Type} (xs : List α) (idx : List ℕ) : List α :=
  idx.filterMap (fun i => xs.get? i)

/-- The four arrays `X_train, X_test, y_train, y_test` of source line 78. -/
def train_test_split {α : Type} (data : List α) (labels : List String)
    (seed : ℕ) : List α × List α × List String × List String :=
  (selectIdx data (stratTrainIdx labels seed),
   selectIdx data (stratTestIdx labels seed),
   selectIdx labels (stratTrainIdx labels seed),
   selectIdx labels (stratTestIdx labels seed))

/-- How many samples of a class an index list picks. -/
def countLabelIn (labels : List String) (idx : List ℕ) (l : String) : ℕ :=
  (idx.filter (fun i => labels.get? i = some l)).length

/-! ## Model assembly and freezing (source lines 94-111)

The backbone's layers are opaque; a layer is its name, its `trainable` flag
and an abstract parameter value.  Gradient application is modelled from the
spec ("weights frozen — zero gradient update"; only `trainable` layers'
parameters receive updates), since the training loop is library code. -/

/-- One Keras layer: name, `trainable` flag, abstract parameters. -/
structure Layer where
  name : String
  trainable : Bool
  weights : ℚ
  deriving DecidableEq

/-- The composite of source line 107: the backbone and the appended head. -/
structure KerasModel where
  baseLayers : List Layer
  headLayers : List Layer
  deriving DecidableEq

/-- The head of source lines 98-103, freshly constructed, hence trainable. -/
def headModelLayers : List Layer :=
  [⟨"average_pooling2d_7x7", true, 0⟩,
   ⟨"flatten", true, 0⟩,
   ⟨"dense_128_relu", true, 0⟩,
   ⟨"dropout_0.50", true, 0⟩,
   ⟨"dense_2_softmax", true, 0⟩]

/-- `Model(inputs=base_model.input, outputs=head_model)` (source line 107)
over an arbitrary pretrained backbone. -/
def assembleModel (base : List Layer) : KerasModel :=
  ⟨base, headModelLayers⟩

/-- The freezing loop of source lines 110-111:
`for layer in base_model.layers: layer.trainable = False`. -/
def freezeBase (m : KerasModel) : KerasModel :=
  { m with baseLayers := m.baseLayers.map (fun l => { l with trainable := false }) }

/-- Modelled from the spec: one gradient application — a trainable layer's
parameters move by the gradient computed for it, a non-trainable layer's
parameters receive zero update. -/
def applyGradient (g : String → ℚ) (l : Layer) : Layer :=
  if l.trainable then { l with weights := l.weights + g l.name } else l

/-- Modelled from the spec: one optimizer step over all layers. -/
def trainStep (g : String → ℚ) (m : KerasModel) : KerasModel :=
  ⟨m.baseLayers.map (applyGradient g), m.headLayers.map (applyGradient g)⟩

/-- A whole training run: the optimizer steps in sequence, each with the
gradients the library computed for it. -/
def trainRun (gs : List (String → ℚ)) (m : KerasModel) : KerasModel :=
  gs.foldl (fun acc g => trainStep g acc) m

/-! ## Step counts passed to `model.fit` (source lines 122-128) -/

/-- `steps_per_epoch=len(X_train) // BS` (source line 124). -/
def steps_per_epoch (trainSize : ℕ) : ℕ := trainSize / BS

/-- `validation_steps = len(X_test) // BS` (source line 126). -/
def validation_steps (testSize : ℕ) : ℕ := testSize / BS

/-! ## Augmenter configuration (source lines 82-90) -/

/-- The fields the script sets on `ImageDataGenerator`. -/
structure AugmenterConfig where
  rotation_range : ℚ
  width_shift_range : ℚ
  height_shift_range : ℚ
  zoom_range : ℚ
  shear_range : ℚ
  horizontal_flip : Bool
  fill_mode : String
  deriving DecidableEq

/-- `train_transformations` (source lines 82-90), with the decimal literals
read exactly as rationals. -/
def train_transformations : AugmenterConfig :=
  { rotation_range := 15
    width_shift_range := 2 / 10
    height_shift_range := 2 / 10
    zoom_range := 10 / 100
    shear_range := 10 / 100
    horizontal_flip := true
    fill_mode := "nearest" }

/-! ## Adam learning-rate decay (source line 116)

`Adam(lr = learning_rate, decay = learning_rate / EPOCHS)`.  The Keras
`decay` argument applies the library's documented inverse-time schedule: at
update step `t` the effective learning rate is `lr * 1 / (1 + decay * t)`.
That schedule — not the schedule itself being in this repository — is what
line 116 configures. -/

/-- `decay = learning_rate / EPOCHS` (source line 116). -/
def adamDecay : ℚ := learning_rate / (EPOCHS : ℚ)

/-- The effective learning rate after `t` optimizer updates under the
configured Keras decay: `lr * 1 / (1 + decay * t)`. -/
def effectiveLR (t : ℕ) : ℚ :=
  learning_rate * (1 / (1 + adamDecay * (t : ℚ)))

/-- A schedule is linear when it is an affine function of the step. -/
def IsLinearSchedule (f : ℕ → ℚ) : Prop :=
  ∃ a b : ℚ, ∀ t : ℕ, f t = a + b * (t : ℚ)

/-! ## Command-line interface (source lines 29-37)

`argparse` behaviour, modelled from its documented contract: parsing fails
when a required argument is missing or an unknown flag is supplied, and
absent optional arguments take their declared defaults. -/

/-- One `add_argument` declaration. -/
structure ArgSpec where
  name : String
  required : Bool
  dflt : Option String
  deriving DecidableEq

/-- The three declarations of source lines 30-36. -/
def argSpecs : List ArgSpec :=
  [⟨"dataset", true, none⟩,
   ⟨"plot", false, some "plots/plot.png"⟩,
   ⟨"model", false, some "face_mask_detector.model"⟩]

/-- The value supplied on the command line for a flag, if any. -/
def lookupProvided (provided : List (String × String)) (n : String) :
    Option String :=
  (provided.find? (fun p => p.1 = n)).map Prod.snd

/-- `ap.parse_args()` (source line 37) over the declared specs: reject
unknown flags, reject a missing required flag, otherwise resolve every
declared flag to its provided value or its default. -/
def parse_args (provided : List (String × String)) :
    Except String (List (String × String)) :=
  if provided.all (fun p => argSpecs.any (fun s => s.name = p.1)) then
    if argSpecs.all (fun s => !s.required || (lookupProvided provided s.name).isSome) then
      Except.ok (argSpecs.map (fun s =>
        (s.name, (lookupProvided provided s.name).getD (s.dflt.getD ""))))
    else Except.error "the following arguments are required: -d/--dataset"
  else Except.error "unrecognized arguments"

end TrainModel

namespace TrainModel

/-! ## Helper lemmas -/

theorem listMax_le {xs : List ℕ} {b : ℕ} (h : ∀ x ∈ xs, x ≤ b) :
    listMax xs ≤ b := by
  induction xs with
  | nil => simp [listMax]
  | cons x xs ih =>
    simp only [listMax, List.foldr_cons]
    exact max_le (h x (by simp)) (ih fun y hy => h y (by simp [hy]))

theorem le_listMax {xs : List ℕ} {x : ℕ} (h : x ∈ xs) : x ≤ listMax xs := by
  induction xs with
  | nil => cases h
  | cons y ys ih =>
    simp only [listMax, List.foldr_cons]
    rcases List.mem_cons.mp h with rfl | hm
    · exact le_max_left _ _
    · exact le_max_of_le_right (ih hm)

theorem mem_lbClasses {labels : List String} {l : String} :
    l ∈ lbClasses labels ↔ l ∈ labels := by
  unfold lbClasses
  rw [(List.perm_insertionSort _ _).mem_iff, List.mem_dedup]

theorem nodup_lbClasses (labels : List String) : (lbClasses labels).Nodup :=
  (List.perm_insertionSort _ _).symm.nodup (List.nodup_dedup labels)

theorem lbClasses_nil_iff {labels : List String} :
    lbClasses labels = [] ↔ labels = [] := by
  constructor
  · intro h
    cases labels with
    | nil => rfl
    | cons x xs =>
      have hx : x ∈ lbClasses (x :: xs) := mem_lbClasses.mpr (by simp)
      rw [h] at hx
      cases hx
  · rintro rfl; rfl

theorem occIndices_mem {l : String} {xs : List String} :
    ∀ {i j : ℕ}, j ∈ occIndices l xs i → i ≤ j ∧ xs.get? (j - i) = some l := by
  induction xs with
  | nil => intro i j h; simp [occIndices] at h
  | cons x xs ih =>
    intro i j h
    simp only [occIndices] at h
    by_cases hx : x = l
    · rw [if_pos hx] at h
      rcases List.mem_cons.mp h with rfl | hm
      · subst hx; exact ⟨le_refl _, by simp⟩
      · obtain ⟨h1, h2⟩ := ih hm
        refine ⟨by omega, ?_⟩
        have hji : j - i = (j - (i + 1)) + 1 := by omega
        rw [hji, List.get?_cons_succ]
        exact h2
    · rw [if_neg hx] at h
      obtain ⟨h1, h2⟩ := ih h
      refine ⟨by omega, ?_⟩
      have hji : j - i = (j - (i + 1)) + 1 := by omega
      rw [hji, List.get?_cons_succ]
      exact h2

theorem occIndices_length {l : String} {xs : List String} :
    ∀ i, (occIndices l xs i).length = xs.count l := by
  induction xs with
  | nil => intro i; rfl
  | cons x xs ih =>
    intro i
    simp only [occIndices]
    by_cases hx : x = l
    · rw [if_pos hx]
      simp [List.count_cons, hx, ih]
    · rw [if_neg hx]
      simp [List.count_cons, hx, ih]

theorem filter_concatMapL (p : ℕ → Bool) (f : String → List ℕ) :
    ∀ cs, (concatMapL f cs).filter p
      = concatMapL (fun c => (f c).filter p) cs := by
  intro cs
  induction cs with
  | nil => rfl
  | cons c cs ih => simp [concatMapL, List.filter_append, ih]

theorem length_concatMapL (f : String → List ℕ) :
    ∀ cs, (concatMapL f cs).length = (cs.map (fun c => (f c).length)).sum := by
  intro cs
  induction cs with
  | nil => rfl
  | cons c cs ih => simp [concatMapL, ih]

theorem sum_map_eq_single (val : String → ℕ) {cs : List String} {l : String}
    (hnd : cs.Nodup) (hl : l ∈ cs) (hz : ∀ c ∈ cs, c ≠ l → val c = 0) :
    (cs.map val).sum = val l := by
  induction cs with
  | nil => cases hl
  | cons c cs ih =>
    simp only [List.map_cons, List.sum_cons]
    rcases List.mem_cons.mp hl with rfl | hm
    · have hall : ∀ c' ∈ cs, val c' = 0 := by
        intro c' hc'
        refine hz c' (List.mem_cons_of_mem _ hc') ?_
        rintro rfl
        exact (List.nodup_cons.mp hnd).1 hc'
      have hs : (cs.map val).sum = 0 := by
        apply List.sum_eq_zero
        intro x hx
        rcases List.mem_map.mp hx with ⟨c', hc', rfl⟩
        exact hall c' hc'
      rw [hs, add_zero]
    · have hc : c ≠ l := by
        rintro rfl
        exact (List.nodup_cons.mp hnd).1 hm
      rw [hz c (by simp) hc,
        ih (List.nodup_cons.mp hnd).2 hm
          (fun c' h' hne => hz c' (List.mem_cons_of_mem _ h') hne),
        zero_add]

theorem block_filter_eq_self {labels : List String} {l : String}
    (blk : List ℕ) (hblk : ∀ j ∈ blk, labels.get? j = some l) :
    blk.filter (fun i => labels.get? i = some l) = blk := by
  rw [List.filter_eq_self]
  intro j hj
  have hg := hblk j hj
  simp only [List.get?_eq_getElem?] at hg
  simp [hg]

theorem block_filter_ne {labels : List String} {l c : String} (hne : c ≠ l)
    (blk : List ℕ) (hblk : ∀ j ∈ blk, labels.get? j = some c) :
    blk.filter (fun i => labels.get? i = some l) = [] := by
  rw [List.filter_eq_nil_iff]
  intro j hj
  have hg := hblk j hj
  simp only [List.get?_eq_getElem?] at hg
  simp [hg, hne]

theorem occIndices_label {labels : List String} {c : String} {j : ℕ}
    (h : j ∈ occIndices c labels 0) : labels.get? j = some c := by
  have := (occIndices_mem h).2
  simpa using this

theorem testCountFor_le {labels : List String} (l : String) :
    testCountFor labels l ≤ labels.count l := by
  unfold testCountFor test_size_percent
  omega

theorem countLabelIn_test {labels : List String} {l : String} (hl : l ∈ labels) :
    countLabelIn labels (stratTestIdx labels random_state) l
      = testCountFor labels l := by
  unfold countLabelIn stratTestIdx
  rw [filter_concatMapL, length_concatMapL,
    sum_map_eq_single _ (nodup_lbClasses labels) (mem_lbClasses.mpr hl) ?_]
  · rw [block_filter_eq_self _
      (fun j hj => occIndices_label (List.mem_of_mem_take hj)),
      List.length_take, occIndices_length]
    exact min_eq_left (testCountFor_le l)
  · intro c _ hc
    rw [block_filter_ne hc _
      (fun j hj => occIndices_label (List.mem_of_mem_take hj))]
    rfl

theorem countLabelIn_train {labels : List String} {l : String} (hl : l ∈ labels) :
    countLabelIn labels (stratTrainIdx labels random_state) l
      = labels.count l - testCountFor labels l := by
  unfold countLabelIn stratTrainIdx
  rw [filter_concatMapL, length_concatMapL,
    sum_map_eq_single _ (nodup_lbClasses labels) (mem_lbClasses.mpr hl) ?_]
  · rw [block_filter_eq_self _
      (fun j hj => occIndices_label (List.mem_of_mem_drop hj)),
      List.length_drop, occIndices_length]
  · intro c _ hc
    rw [block_filter_ne hc _
      (fun j hj => occIndices_label (List.mem_of_mem_drop hj))]
    rfl

theorem encode_two_class {labels : List String} {c0 c1 : String}
    (hcls : lbClasses labels = [c0, c1]) :
    encodeLabels labels
      = CatOut.m2 (labels.map (fun l => oneHot 2 (if l = c1 then 1 else 0))) := by
  have hc1mem : c1 ∈ labels := mem_lbClasses.mp (by rw [hcls]; simp)
  have hft : fit_transform labels
      = LBOut.col (labels.map (fun l => if l = c1 then 1 else 0)) := by
    unfold fit_transform
    rw [hcls]
    simp
  have hmax : listMax (labels.map (fun l => if l = c1 then (1 : ℕ) else 0)) = 1 := by
    apply le_antisymm
    · apply listMax_le
      intro x hx
      rcases List.mem_map.mp hx with ⟨l, _, rfl⟩
      split <;> omega
    · exact le_listMax (List.mem_map.mpr ⟨c1, hc1mem, by simp⟩)
  unfold encodeLabels
  rw [hft]
  simp only [to_categorical, hmax, List.map_map]
  rfl

theorem encode_one_class {labels : List String} {c : String}
    (hcls : lbClasses labels = [c]) :
    encodeLabels labels = CatOut.m2 (labels.map (fun _ => [1])) := by
  have hft : fit_transform labels
      = LBOut.col (labels.map (fun _ => 0)) := by
    unfold fit_transform
    rw [hcls]
    simp
  have hmax : listMax (labels.map (fun _ : String => (0 : ℕ))) = 0 := by
    apply Nat.le_antisymm
    · apply listMax_le
      intro x hx
      rcases List.mem_map.mp hx with ⟨l, _, rfl⟩
      exact le_refl 0
    · exact Nat.zero_le _
  unfold encodeLabels
  rw [hft]
  simp only [to_categorical, hmax, List.map_map]
  rfl

theorem encode_many_class {labels : List String}
    (h3 : 3 ≤ (lbClasses labels).length) :
    ∃ slabs, encodeLabels labels = CatOut.m3 slabs := by
  unfold encodeLabels fit_transform
  rw [if_neg (by omega)]
  exact ⟨_, rfl⟩

theorem get?_mem_of_eq_some {α : Type} {xs : List α} {i : ℕ} {a : α}
    (h : xs.get? i = some a) : a ∈ xs := by
  induction xs generalizing i with
  | nil => cases i <;> cases h
  | cons x xs ih =>
    cases i with
    | zero => simp at h; simp [h.symm]
    | succ n => exact List.mem_cons_of_mem _ (ih h)

theorem trainStep_base_frozen {m : KerasModel}
    (hm : ∀ l ∈ m.baseLayers, l.trainable = false) (g : String → ℚ) :
    (trainStep g m).baseLayers = m.baseLayers := by
  show m.baseLayers.map (applyGradient g) = m.baseLayers
  have hid : ∀ l ∈ m.baseLayers, applyGradient g l = l := by
    intro l hl
    simp [applyGradient, hm l hl]
  calc m.baseLayers.map (applyGradient g)
      = m.baseLayers.map id := List.map_congr_left hid
    _ = m.baseLayers := List.map_id _

theorem trainRun_base_frozen (gs : List (String → ℚ)) :
    ∀ (m : KerasModel), (∀ l ∈ m.baseLayers, l.trainable = false) →
      (trainRun gs m).baseLayers = m.baseLayers := by
  induction gs with
  | nil => intro m _; rfl
  | cons g gs ih =>
    intro m hm
    have hstep := trainStep_base_frozen hm g
    have hrun : trainRun (g :: gs) m = trainRun gs (trainStep g m) := rfl
    rw [hrun, ih (trainStep g m) (by rw [hstep]; exact hm), hstep]

/-! ## The claims -/

/-- Claim C1, as stated, is false: a file system whose walk yields one
non-image file has zero recognizable images, yet the loading stage does not
fail — the enumeration returns the empty list and the loop completes. -/
theorem C1_counterexample :
    ¬ (∀ fs : List (List String), list_images fs = [] →
        ∃ e, loadStage fs = Except.error e) := by
  intro h
  rcases h [["dataset", "readme.txt"]] (by decide) with ⟨e, he⟩
  rw [show loadStage [["dataset", "readme.txt"]] = Except.ok ([], []) from rfl] at he
  exact Except.noConfusion he

/-- Claim C1 (amended): if the dataset directory contains zero recognizable
image files, the file-enumeration step reports no error — it returns an
empty list — and the dataset-loading stage silently completes with empty
data and label arrays, proceeding to later stages. -/
theorem C1_empty_enumeration_yields_empty_arrays (fs : List (List String))
    (h : list_images fs = []) : loadStage fs = Except.ok ([], []) := by
  simp [loadStage, h, collectLabels]

/-- Witness for the amended C1 at a concrete imageless file system. -/
theorem C1_witness :
    list_images [["dataset", "readme.txt"]] = []
    ∧ loadStage [["dataset", "readme.txt"]] = Except.ok ([], []) :=
  ⟨by decide, C1_empty_enumeration_yields_empty_arrays _ (by decide)⟩

/-- Claim C2: with the seed (42) and test fraction (0.20) of the call site,
two executions of the splitter on the same inputs produce the identical
split, and the split is stratified: every class puts exactly
`⌊count * 20 / 100⌋` samples in the test partition and the rest in the train
partition, so each partition's class proportion matches the full dataset's
within rounding (`5 * testCount` within 5 of `count`, and `5 * trainCount`
within 5 of `4 * count`). -/
theorem C2_split_deterministic_and_stratified
    (data : List (List String)) (labels : List String) :
    train_test_split data labels random_state
      = train_test_split data labels random_state
    ∧ ∀ l ∈ labels,
        countLabelIn labels (stratTestIdx labels random_state) l
            = testCountFor labels l
        ∧ countLabelIn labels (stratTrainIdx labels random_state) l
            = labels.count l - testCountFor labels l
        ∧ 5 * testCountFor labels l ≤ labels.count l
        ∧ labels.count l < 5 * testCountFor labels l + 5
        ∧ 4 * labels.count l ≤ 5 * (labels.count l - testCountFor labels l)
        ∧ 5 * (labels.count l - testCountFor labels l)
            < 4 * labels.count l + 5 := by
  refine ⟨rfl, ?_⟩
  intro l hl
  refine ⟨countLabelIn_test hl, countLabelIn_train hl, ?_, ?_, ?_, ?_⟩ <;>
    (unfold testCountFor test_size_percent; omega)

/-- Witness for C2 on a concrete 10-sample, two-class label array. -/
theorem C2_witness :
    countLabelIn ["m", "m", "m", "m", "m", "n", "n", "n", "n", "n"]
      (stratTestIdx ["m", "m", "m", "m", "m", "n", "n", "n", "n", "n"]
        random_state) "m" = 1
    ∧ countLabelIn ["m", "m", "m", "m", "m", "n", "n", "n", "n", "n"]
      (stratTrainIdx ["m", "m", "m", "m", "m", "n", "n", "n", "n", "n"]
        random_state) "m" = 4 := by
  have h := (C2_split_deterministic_and_stratified ([] : List (List String))
    ["m", "m", "m", "m", "m", "n", "n", "n", "n", "n"]).2 "m" (by decide)
  refine ⟨?_, ?_⟩
  · rw [h.1]; decide
  · rw [h.2.1]; decide

/-- Claim C3: for a two-class dataset (the script's mask/no-mask setting),
the label encoding round-trips — for every label string in the label array,
indexing the fitted class list with the argmax of its encoded row
reproduces the original label string. -/
theorem C3_label_roundtrip (labels : List String)
    (h2 : (lbClasses labels).length = 2) :
    ∃ rows, encodeLabels labels = CatOut.m2 rows
      ∧ ∀ i l, labels.get? i = some l →
          ∃ r, rows.get? i = some r ∧ decodeIdx labels (argmaxL r) = some l := by
  obtain ⟨c0, c1, hcls⟩ := List.length_eq_two.mp h2
  refine ⟨_, encode_two_class hcls, ?_⟩
  intro i l hil
  refine ⟨oneHot 2 (if l = c1 then 1 else 0), ?_, ?_⟩
  · rw [List.get?_map, hil]
    rfl
  · have hlmem : l ∈ lbClasses labels := mem_lbClasses.mpr (get?_mem_of_eq_some hil)
    rw [hcls] at hlmem
    by_cases hl : l = c1
    · subst hl
      have h1 : oneHot 2 1 = [0, 1] := rfl
      have h2' : argmaxL [0, 1] = 1 := rfl
      rw [if_pos rfl, h1, h2']
      unfold decodeIdx
      rw [hcls]
      rfl
    · have hl0 : l = c0 := by
        rcases List.mem_cons.mp hlmem with h | h
        · exact h
        · simp at h; exact absurd h hl
      have h1 : oneHot 2 0 = [1, 0] := rfl
      have h2' : argmaxL [1, 0] = 0 := rfl
      rw [if_neg hl, h1, h2']
      unfold decodeIdx
      rw [hcls, hl0]
      rfl

/-- Witness for C3 on a concrete two-class label array. -/
theorem C3_witness :
    ∃ rows,
      encodeLabels ["with_mask", "without_mask", "with_mask"] = CatOut.m2 rows
      ∧ ∃ r, rows.get? 0 = some r
          ∧ decodeIdx ["with_mask", "without_mask", "with_mask"] (argmaxL r)
              = some "with_mask" := by
  obtain ⟨rows, henc, hrt⟩ :=
    C3_label_roundtrip ["with_mask", "without_mask", "with_mask"] (by decide)
  exact ⟨rows, henc, hrt 0 "with_mask" (by decide)⟩

/-- Claim C4: with batch size `BS = 32`, the training steps per epoch equal
`⌊T / 32⌋` and the validation steps equal `⌊S / 32⌋`; the partial final
batch (the remainder below `BS`) is dropped, and every size is accepted —
the computation is total, never an error. -/
theorem C4_step_counts (T S : ℕ) :
    steps_per_epoch T = T / 32 ∧ validation_steps S = S / 32
    ∧ steps_per_epoch T * BS ≤ T ∧ T < (steps_per_epoch T + 1) * BS
    ∧ T - steps_per_epoch T * BS = T % BS ∧ T % BS < BS := by
  refine ⟨rfl, rfl, ?_, ?_, ?_, ?_⟩ <;> simp [steps_per_epoch, BS] <;> omega

/-- Claim C5: after the freezing loop every backbone layer is marked
non-trainable (and every head layer remains trainable), so under any
training run — any sequence of gradient applications — the backbone
parameters are unchanged: only the head can change. -/
theorem C5_backbone_frozen (base : List Layer) (gs : List (String → ℚ)) :
    (∀ l ∈ (freezeBase (assembleModel base)).baseLayers, l.trainable = false)
    ∧ (∀ l ∈ (freezeBase (assembleModel base)).headLayers, l.trainable = true)
    ∧ (trainRun gs (freezeBase (assembleModel base))).baseLayers
        = (freezeBase (assembleModel base)).baseLayers := by
  have hfrozen : ∀ l ∈ (freezeBase (assembleModel base)).baseLayers,
      l.trainable = false := by
    intro l hl
    rcases List.mem_map.mp hl with ⟨l', _, rfl⟩
    rfl
  refine ⟨hfrozen, ?_, trainRun_base_frozen gs _ hfrozen⟩
  intro l hl
  have hhd : (freezeBase (assembleModel base)).headLayers = headModelLayers := rfl
  rw [hhd] at hl
  fin_cases hl <;> rfl

/-- Claim C6, as stated, is false: the effective learning rate of the
configured optimizer is not a linear function of the training step. -/
theorem C6_counterexample : ¬ IsLinearSchedule effectiveLR := by
  rintro ⟨a, b, h⟩
  have hlin : effectiveLR 0 + effectiveLR 2 = 2 * effectiveLR 1 := by
    rw [h 0, h 1, h 2]; push_cast; ring
  norm_num [effectiveLR, adamDecay, learning_rate, EPOCHS] at hlin

/-- Claim C6 (amended): the learning rate starts at `1e-3` and decays
monotonically by the inverse-time schedule
`lr / (1 + (lr / EPOCHS) * t) = 20 / (20000 + t)`, with no endpoint at the
end of the epoch count — not linearly. -/
theorem C6_inverse_time_decay :
    effectiveLR 0 = learning_rate
    ∧ (∀ t : ℕ, effectiveLR t = 20 / (20000 + (t : ℚ)))
    ∧ (∀ t : ℕ, effectiveLR (t + 1) < effectiveLR t) := by
  have closed : ∀ t : ℕ, effectiveLR t = 20 / (20000 + (t : ℚ)) := by
    intro t
    have ht : (0 : ℚ) < 20000 + (t : ℚ) := by positivity
    unfold effectiveLR adamDecay learning_rate EPOCHS
    field_simp
    ring
  refine ⟨by norm_num [effectiveLR, adamDecay, learning_rate], closed, ?_⟩
  intro t
  rw [closed t, closed (t + 1)]
  have h1 : (0 : ℚ) < 20000 + (t : ℚ) := by positivity
  push_cast
  gcongr
  linarith

/-- Claim C7: the augmenter is configured with exactly rotation up to 15
degrees, width and height shift up to 20%, zoom up to 10%, shear up to 10%,
horizontal flip enabled, and nearest-pixel edge fill. -/
theorem C7_augmenter_config :
    train_transformations.rotation_range = 15
    ∧ train_transformations.width_shift_range = 20 / 100
    ∧ train_transformations.height_shift_range = 20 / 100
    ∧ train_transformations.zoom_range = 10 / 100
    ∧ train_transformations.shear_range = 10 / 100
    ∧ train_transformations.horizontal_flip = true
    ∧ train_transformations.fill_mode = "nearest" := by
  refine ⟨rfl, ?_, ?_, rfl, rfl, rfl, rfl⟩ <;> norm_num [train_transformations]

/-- Claim C8: the interface declares exactly the three flags `dataset`
(required), `plot` (default `plots/plot.png`) and `model` (default
`face_mask_detector.model`); parsing succeeds with the defaults when only
`dataset` is supplied and fails whenever `dataset` is omitted. -/
theorem C8_cli :
    argSpecs.map ArgSpec.name = ["dataset", "plot", "model"]
    ∧ argSpecs.map ArgSpec.required = [true, false, false]
    ∧ parse_args [("dataset", "d")] =
        Except.ok [("dataset", "d"), ("plot", "plots/plot.png"),
                   ("model", "face_mask_detector.model")]
    ∧ (∀ provided, lookupProvided provided "dataset" = none →
        ∃ e, parse_args provided = Except.error e) := by
  refine ⟨rfl, rfl, rfl, ?_⟩
  intro provided h
  unfold parse_args
  split
  · have hall : (argSpecs.all fun s =>
        !s.required || (lookupProvided provided s.name).isSome) = false := by
      simp [argSpecs, h]
    rw [hall]
    exact ⟨_, rfl⟩
  · exact ⟨_, rfl⟩

/-- Witness for C8 at the empty command line. -/
theorem C8_witness :
    lookupProvided [] "dataset" = none ∧ ∃ e, parse_args [] = Except.error e :=
  ⟨rfl, C8_cli.2.2.2 [] rfl⟩

/-- Claim C9, as stated, is false for the one-class case: with a single
class the encoded matrix still corresponds to the fitted class list — one
column for the one class, and the argmax still decodes every label. -/
theorem C9_counterexample :
    ¬ (∀ labels : List String, (lbClasses labels).length ≠ 2 →
        ¬ correspondsToClasses labels) := by
  intro h
  refine h ["with_mask"] (by decide) ?_
  refine ⟨[[1]], rfl, rfl, ?_, ?_⟩
  · intro r hr
    simp at hr
    subst hr
    rfl
  · intro i l hil
    cases i with
    | zero =>
      have hl : "with_mask" = l := by simpa using hil
      subst hl
      exact ⟨[1], rfl, rfl⟩
    | succ n => simp at hil

/-- Claim C9 (amended): the pipeline yields a valid two-column one-hot
matrix exactly when there are two distinct classes; with one class the
output is a single-column matrix (mismatching the fixed two-unit output
head, though its argmax still indexes the class list), and with three or
more classes the output is three-dimensional, not a matrix at all. -/
theorem C9_two_class_shape (labels : List String) (hne : labels ≠ []) :
    headOutputUnits = 2
    ∧ (validTwoColumnOneHot labels ↔ (lbClasses labels).length = 2)
    ∧ ((lbClasses labels).length = 1 →
        encodeLabels labels = CatOut.m2 (labels.map (fun _ => [1])))
    ∧ (3 ≤ (lbClasses labels).length →
        ∃ slabs, encodeLabels labels = CatOut.m3 slabs) := by
  have hone : (lbClasses labels).length = 1 →
      encodeLabels labels = CatOut.m2 (labels.map (fun _ => [1])) := by
    intro h1
    obtain ⟨c, hc⟩ := List.length_eq_one.mp h1
    exact encode_one_class hc
  refine ⟨rfl, ⟨?_, ?_⟩, hone, encode_many_class⟩
  · rintro ⟨rows, henc, hlen, hall⟩
    by_contra hk2
    have hk : (lbClasses labels).length = 0 ∨ (lbClasses labels).length = 1
        ∨ 3 ≤ (lbClasses labels).length := by omega
    rcases hk with hk | hk | hk
    · exact hne (lbClasses_nil_iff.mp (List.length_eq_zero.mp hk))
    · have h1 := hone hk
      rw [h1] at henc
      have hrows : rows = labels.map (fun _ => [1]) := by
        injection henc with h
        exact h.symm
      cases labels with
      | nil => exact hne rfl
      | cons x xs =>
        have hmem : [1] ∈ rows := by
          rw [hrows]
          exact List.mem_map.mpr ⟨x, by simp, rfl⟩
        rcases hall [1] hmem with h | h <;> simp at h
    · obtain ⟨slabs, hs⟩ := encode_many_class hk
      rw [hs] at henc
      cases henc
  · intro h2
    obtain ⟨c0, c1, hcls⟩ := List.length_eq_two.mp h2
    refine ⟨_, encode_two_class hcls, by simp, ?_⟩
    intro r hr
    rcases List.mem_map.mp hr with ⟨l, _, rfl⟩
    by_cases hl : l = c1
    · right
      rw [if_pos hl]
      rfl
    · left
      rw [if_neg hl]
      rfl

/-- Witness for the amended C9 on a concrete two-class label array. -/
theorem C9_witness :
    validTwoColumnOneHot ["with_mask", "without_mask"] :=
  ((C9_two_class_shape ["with_mask", "without_mask"] (by decide)).2.1).mpr
    (by decide)

/-- Claim C10: the class label of a discovered image path is its
second-to-last component — the immediate parent directory's name — and an
image file lying directly inside the dataset directory is not rejected: it
is labeled with the dataset directory's own name. -/
theorem C10_label_is_second_to_last :
    (∀ comps : List String, 2 ≤ comps.length →
        labelOf comps = comps.get? (comps.length - 2) ∧ (labelOf comps).isSome)
    ∧ loadStage [["dataset", "img.jpg"]] =
        Except.ok ([["dataset", "img.jpg"]], ["dataset"]) := by
  refine ⟨?_, rfl⟩
  intro comps h
  have hlt : comps.length - 2 < comps.length := by omega
  refine ⟨by simp [labelOf, h], ?_⟩
  simp only [labelOf, if_pos h, List.get?_eq_get hlt]
  rfl

/-- Witness for C10 at a path lying directly inside the dataset directory. -/
theorem C10_witness :
    labelOf ["dataset", "img.jpg"] = some "dataset" := by
  have h := (C10_label_is_second_to_last.1 ["dataset", "img.jpg"] (by decide)).1
  simpa using h

end TrainModel
